import Mathlib

/-!
Verification of the PythonIrbis client library: a shallow embedding of the
record codec (`irbis/records/record.py`), the session state machine
(`irbis/connection.py`, `irbis/connection/sync_connection.py`) and the
record-level mutation API, together with proofs about the properties the
specification states for them.

Python strings are embedded as lists of characters (`PStr`), Python `int`
as `Int`, in-place mutation as explicit state passing, and exceptions as
`Except`/`Option` results tagged with the exception kind.  Modules of the
repository that are not available in source form (`irbis/records/field.py`,
`irbis/records/subfield.py`, `irbis/_common.py`, `irbis/query.py`,
`irbis/response.py`, `irbis/ini.py`) are modelled from the specification;
each such definition carries a doc comment starting `Modelled from the
spec:`.
-/

namespace Irbis

/-- Python strings are modelled as lists of characters. -/
abbrev PStr := List Char

deriving instance DecidableEq for Except

/-- Kinds of Python exception that the embedded code can raise.
`validationError` is the error class named by the specification's error
taxonomy; the others are the concrete Python exception classes the code
raises. -/
inductive PyErr where
  | valueError
  | typeError
  | assertionError
  | indexError
  | irbisError (code : Option Int)
  | validationError
  | transportError
deriving DecidableEq, Repr

/-- Numeric value of a decimal digit character. -/
def digitVal (c : Char) : Nat := c.toNat - 48

/-- Decimal digit character for a value below ten. -/
def digitChr (d : Nat) : Char := Char.ofNat (48 + d)

/-- Value of a little-endian list of decimal digit characters. -/
def valLE : List Char → Nat
  | [] => 0
  | c :: cs => digitVal c + 10 * valLE cs

/-- Little-endian decimal digits, with explicit fuel so that the kernel can
evaluate the definition; `natLE` supplies enough fuel. -/
def natLEAux (fuel n : Nat) : List Char :=
  match n, fuel with
  | 0, _ => []
  | _ + 1, 0 => []
  | m + 1, f + 1 => digitChr ((m + 1) % 10) :: natLEAux f ((m + 1) / 10)

/-- Little-endian decimal digits of a natural number, empty for zero. -/
def natLE (n : Nat) : List Char := natLEAux n n

theorem natLEAux_fuel : ∀ {n fuel1 fuel2 : Nat}, n ≤ fuel1 → n ≤ fuel2 →
    natLEAux fuel1 n = natLEAux fuel2 n := by
  intro n
  induction n using Nat.strong_induction_on with
  | _ n ih =>
    intro fuel1 fuel2 h1 h2
    cases n with
    | zero => cases fuel1 <;> cases fuel2 <;> rfl
    | succ m =>
      cases fuel1 with
      | zero => omega
      | succ f1 =>
        cases fuel2 with
        | zero => omega
        | succ f2 =>
          show digitChr ((m + 1) % 10) :: natLEAux f1 ((m + 1) / 10)
            = digitChr ((m + 1) % 10) :: natLEAux f2 ((m + 1) / 10)
          have hlt : (m + 1) / 10 < m + 1 := Nat.div_lt_self (by omega) (by omega)
          have h3 : (m + 1) / 10 ≤ f1 := by omega
          have h4 : (m + 1) / 10 ≤ f2 := by omega
          rw [ih ((m + 1) / 10) hlt h3 h4]

theorem natLE_eq (n : Nat) :
    natLE n = if n = 0 then [] else digitChr (n % 10) :: natLE (n / 10) := by
  cases n with
  | zero => rfl
  | succ m =>
    rw [if_neg (Nat.succ_ne_zero m)]
    show digitChr ((m + 1) % 10) :: natLEAux m ((m + 1) / 10)
      = digitChr ((m + 1) % 10) :: natLE ((m + 1) / 10)
    have hlt : (m + 1) / 10 < m + 1 := Nat.div_lt_self (by omega) (by omega)
    rw [natLE, natLEAux_fuel (by omega) (le_refl _)]

/-- Python decimal rendering of a natural number, as `str` produces it. -/
def pyStrNat (n : Nat) : PStr := if n = 0 then ['0'] else (natLE n).reverse

/-- Python decimal rendering of an integer, as `str` produces it. -/
def pyStr (i : Int) : PStr := if i < 0 then '-' :: pyStrNat i.natAbs else pyStrNat i.toNat

/-- Numeric reading of a nonempty all-digit string. -/
def natFromDigits? (cs : List Char) : Option Nat :=
  if cs ≠ [] ∧ cs.all Char.isDigit then some (valLE cs.reverse) else none

/-- Python `int(text)` on the decimal forms this protocol produces: an
optional minus sign followed by decimal digits.  (Whitespace and the other
liberalities of Python's `int` never occur in the wire format and are not
modelled.) -/
def pyInt? (cs : PStr) : Option Int :=
  if cs.head? = some '-' then (natFromDigits? cs.tail).map (fun n => -(n : Int))
  else (natFromDigits? cs).map Int.ofNat

theorem digitVal_digitChr {d : Nat} (h : d < 10) : digitVal (digitChr d) = d := by
  interval_cases d <;> decide

theorem isDigit_digitChr {d : Nat} (h : d < 10) : (digitChr d).isDigit = true := by
  interval_cases d <;> decide

theorem natLE_all_digits (n : Nat) : ∀ c ∈ natLE n, c.isDigit = true := by
  induction n using Nat.strong_induction_on with
  | _ n ih =>
    intro c hc
    by_cases h : n = 0
    · rw [natLE_eq, if_pos h] at hc
      exact absurd hc (List.not_mem_nil c)
    · rw [natLE_eq, if_neg h, List.mem_cons] at hc
      rcases hc with hc | hc
      · subst hc; exact isDigit_digitChr (Nat.mod_lt _ (by omega))
      · exact ih (n / 10) (Nat.div_lt_self (Nat.pos_of_ne_zero h) (by omega)) c hc

theorem valLE_natLE (n : Nat) : valLE (natLE n) = n := by
  induction n using Nat.strong_induction_on with
  | _ n ih =>
    by_cases h : n = 0
    · rw [natLE_eq, if_pos h, h]; rfl
    · rw [natLE_eq, if_neg h, valLE, digitVal_digitChr (Nat.mod_lt _ (by omega)),
        ih (n / 10) (Nat.div_lt_self (Nat.pos_of_ne_zero h) (by omega))]
      omega

theorem natLE_ne_nil {n : Nat} (h : n ≠ 0) : natLE n ≠ [] := by
  rw [natLE_eq]; simp [h]

theorem pyStrNat_ne_nil (n : Nat) : pyStrNat n ≠ [] := by
  unfold pyStrNat
  by_cases h : n = 0
  · simp [h]
  · simpa [h] using natLE_ne_nil h

theorem pyStrNat_all_digits (n : Nat) : ∀ c ∈ pyStrNat n, c.isDigit = true := by
  intro c hc
  by_cases h : n = 0
  · rw [pyStrNat, if_pos h, List.mem_singleton] at hc
    subst hc; decide
  · rw [pyStrNat, if_neg h, List.mem_reverse] at hc
    exact natLE_all_digits n c hc

theorem natFromDigits?_pyStrNat (n : Nat) : natFromDigits? (pyStrNat n) = some n := by
  unfold natFromDigits?
  rw [if_pos ⟨pyStrNat_ne_nil n, List.all_eq_true.mpr (pyStrNat_all_digits n)⟩]
  unfold pyStrNat
  by_cases h : n = 0
  · simp [h, valLE, digitVal]
  · simp only [h, if_false, List.reverse_reverse, valLE_natLE]

theorem head?_pyStrNat_isDigit (n : Nat) :
    ∃ c, (pyStrNat n).head? = some c ∧ c.isDigit = true := by
  cases hcs : pyStrNat n with
  | nil => exact absurd hcs (pyStrNat_ne_nil n)
  | cons c cs =>
    exact ⟨c, rfl, pyStrNat_all_digits n c (by rw [hcs]; exact List.mem_cons_self c cs)⟩

theorem pyInt?_pyStr (i : Int) : pyInt? (pyStr i) = some i := by
  unfold pyStr pyInt?
  by_cases h : i < 0
  · rw [if_pos h, List.head?_cons, if_pos rfl, List.tail_cons,
      natFromDigits?_pyStrNat]
    show some (-(i.natAbs : Int)) = some i
    have hi : -(i.natAbs : Int) = i := by omega
    rw [hi]
  · simp only [h, if_false]
    obtain ⟨c, hc, hd⟩ := head?_pyStrNat_isDigit i.toNat
    have hne : (pyStrNat i.toNat).head? ≠ some '-' := by
      rw [hc]
      intro heq
      rw [Option.some_inj] at heq
      subst heq
      exact absurd hd (by decide)
    rw [if_neg hne, natFromDigits?_pyStrNat]
    show some ((i.toNat : Int)) = some i
    rw [Int.toNat_of_nonneg (by omega)]

theorem mem_pyStr_of (i : Int) : ∀ c ∈ pyStr i, c = '-' ∨ c.isDigit = true := by
  intro c hc
  by_cases h : i < 0
  · rw [pyStr, if_pos h, List.mem_cons] at hc
    rcases hc with hc | hc
    · exact Or.inl hc
    · exact Or.inr (pyStrNat_all_digits _ c hc)
  · rw [pyStr, if_neg h] at hc
    exact Or.inr (pyStrNat_all_digits _ c hc)

theorem hash_not_mem_pyStr (i : Int) : '#' ∉ pyStr i := by
  intro h
  rcases mem_pyStr_of i '#' h with h' | h' <;> exact absurd h' (by decide)

theorem caret_not_mem_pyStr (i : Int) : '^' ∉ pyStr i := by
  intro h
  rcases mem_pyStr_of i '^' h with h' | h' <;> exact absurd h' (by decide)

theorem pyStr_ne_nil (i : Int) : pyStr i ≠ [] := by
  unfold pyStr
  by_cases h : i < 0
  · simp [h]
  · simpa [h] using pyStrNat_ne_nil i.toNat

/-- Python `text.split(sep)` for a one-character separator: always returns a
nonempty list, `[[]]` on empty input. -/
def splitOnChar (sep : Char) : PStr → List PStr
  | [] => [[]]
  | x :: xs =>
    match splitOnChar sep xs with
    | [] => [[]]
    | y :: ys => if x = sep then [] :: y :: ys else (x :: y) :: ys

/-- Python `text.split(sep, 1)` for a one-character separator: the part before
the first separator, and the rest when a separator occurs. -/
def splitFirst (sep : Char) : PStr → PStr × Option PStr
  | [] => ([], none)
  | x :: xs =>
    if x = sep then ([], some xs)
    else
      let r := splitFirst sep xs
      (x :: r.1, r.2)

theorem splitOnChar_ne_nil (sep : Char) (cs : PStr) : splitOnChar sep cs ≠ [] := by
  cases cs with
  | nil => simp [splitOnChar]
  | cons x xs =>
    rw [splitOnChar]
    rcases h : splitOnChar sep xs with _ | ⟨y, ys⟩
    · simp
    · by_cases hx : x = sep <;> simp [hx]

theorem splitOnChar_of_not_mem {sep : Char} {cs : PStr} (h : sep ∉ cs) :
    splitOnChar sep cs = [cs] := by
  induction cs with
  | nil => rfl
  | cons x xs ih =>
    rw [List.mem_cons, not_or] at h
    rw [splitOnChar, ih h.2]
    show (if x = sep then [] :: xs :: [] else (x :: xs) :: []) = [x :: xs]
    rw [if_neg (fun hx => h.1 hx.symm)]

theorem splitOnChar_append {sep : Char} {a : PStr} (h : sep ∉ a) (b : PStr) :
    splitOnChar sep (a ++ sep :: b) = a :: splitOnChar sep b := by
  induction a with
  | nil =>
    rw [List.nil_append, splitOnChar]
    rcases hb : splitOnChar sep b with _ | ⟨y, ys⟩
    · exact absurd hb (splitOnChar_ne_nil sep b)
    · show (if sep = sep then [] :: y :: ys else (sep :: y) :: ys) = [] :: y :: ys
      rw [if_pos rfl]
  | cons x xs ih =>
    rw [List.mem_cons, not_or] at h
    rw [List.cons_append, splitOnChar, ih h.2]
    show (if x = sep then [] :: xs :: splitOnChar sep b
        else (x :: xs) :: splitOnChar sep b) = (x :: xs) :: splitOnChar sep b
    rw [if_neg (fun hx => h.1 hx.symm)]

theorem splitFirst_of_not_mem {sep : Char} {cs : PStr} (h : sep ∉ cs) :
    splitFirst sep cs = (cs, none) := by
  induction cs with
  | nil => rfl
  | cons x xs ih =>
    rw [List.mem_cons, not_or] at h
    rw [splitFirst, if_neg (fun hx => h.1 hx.symm), ih h.2]

theorem splitFirst_append {sep : Char} {a : PStr} (h : sep ∉ a) (b : PStr) :
    splitFirst sep (a ++ sep :: b) = (a, some b) := by
  induction a with
  | nil => rw [List.nil_append, splitFirst, if_pos rfl]
  | cons x xs ih =>
    rw [List.mem_cons, not_or] at h
    rw [List.cons_append, splitFirst, if_neg (fun hx => h.1 hx.symm), ih h.2]

/-- Modelled from the spec: `irbis/records/subfield.py` is not under `src/`.
A subfield is a one-character code plus a string value, both stored verbatim;
equality is by (code, value) (spec section 3). -/
structure SubField where
  code : Char
  value : PStr
deriving DecidableEq, Repr

/-- Modelled from the spec: `irbis/records/field.py` is not under `src/`.
A field has an integer tag (positive for fields built through the record
API), an optional bare value — the text before the first subfield marker —
and an ordered list of subfields, repeats allowed; equality is by
(tag, value, subfield sequence) (spec section 3). -/
structure Field where
  tag : Int
  value : Option PStr
  subfields : List SubField
deriving DecidableEq, Repr

/-- Modelled from the spec: wire text of one subfield,
`{marker}{code}{subvalue}` with the reserved one-character subfield marker
`^` (spec section 4.4); Python `str(subfield)`. -/
def SubField.toText (sf : SubField) : PStr := '^' :: sf.code :: sf.value

/-- Modelled from the spec: wire line of one field,
`"{tag}#{value}{marker}{code}{subvalue}…"` repeated per subfield
(spec section 4.4); Python `str(field)`. -/
def Field.toText (f : Field) : PStr :=
  pyStr f.tag ++ '#' :: ((f.value.getD []) ++ (f.subfields.map SubField.toText).flatten)

/-- One `marker/code/value` run of a field line: the first character is the
subfield code, the rest its value; an empty run is malformed. -/
def subFromChunk (ch : PStr) : Option SubField :=
  match ch with
  | [] => none
  | c :: rest => some ⟨c, rest⟩

/-- Modelled from the spec: `Field.parse`, the inverse direction of spec
section 4.4 — tag up to the first `#`, optional bare value preceding the
first marker, then alternating marker/code/value runs.  `none` models the
`ValueError`/`IndexError` a malformed line raises. -/
def Field.parseLine (line : PStr) : Option Field :=
  (splitFirst '#' line).2.bind fun body =>
    (pyInt? (splitFirst '#' line).1).bind fun tag =>
      match splitOnChar '^' body with
      | [] => none
      | bare :: chunks =>
        (chunks.mapM subFromChunk).map fun subs =>
          { tag := tag, value := if bare = [] then none else some bare,
            subfields := subs }

/-- Subfield content that survives the wire format: neither the code nor the
value contains the reserved subfield marker. -/
def SubField.markerFree (sf : SubField) : Bool :=
  (sf.code != '^') && sf.value.all (· != '^')

/-- Field content that survives the wire format: the bare value and all
subfields are free of the reserved subfield marker. -/
def Field.markerFree (f : Field) : Bool :=
  (match f.value with
   | none => true
   | some v => v.all (· != '^')) && f.subfields.all SubField.markerFree

/-- Fields constructed through the record API never carry an empty-string
bare value: `validate_value` (in `irbis/records/abstract.py`) rejects the
empty string, and `Field.parse` turns an empty bare part into `None`. -/
def Field.validValue (f : Field) : Bool := f.value ≠ some []

theorem splitCaret_flatten {sfs : List SubField}
    (hsfs : ∀ sf ∈ sfs, sf.markerFree = true) :
    ∀ a : PStr, '^' ∉ a →
      splitOnChar '^' (a ++ (sfs.map SubField.toText).flatten) =
        a :: sfs.map (fun sf => sf.code :: sf.value) := by
  induction sfs with
  | nil =>
    intro a ha
    rw [List.map_nil, List.flatten_nil, List.append_nil, List.map_nil,
      splitOnChar_of_not_mem ha]
  | cons sf rest ih =>
    intro a ha
    have hsf := hsfs sf (List.mem_cons_self sf rest)
    rw [SubField.markerFree, Bool.and_eq_true, bne_iff_ne, List.all_eq_true] at hsf
    have hbody : '^' ∉ sf.code :: sf.value := by
      rw [List.mem_cons, not_or]
      refine ⟨fun hx => hsf.1 hx.symm, fun hmem => ?_⟩
      have h := hsf.2 '^' hmem
      simp at h
    rw [List.map_cons, List.flatten_cons, SubField.toText, List.cons_append,
      splitOnChar_append ha,
      ih (fun s hs => hsfs s (List.mem_cons_of_mem sf hs)) _ hbody, List.map_cons]

theorem mapM_subFromChunk (sfs : List SubField) :
    (sfs.map (fun sf => sf.code :: sf.value)).mapM subFromChunk = some sfs := by
  induction sfs with
  | nil => rfl
  | cons sf rest ih =>
    rw [List.map_cons, List.mapM_cons, ih]
    rfl

/-- Round trip at field level: a marker-free field with a valid bare value is
recovered exactly by `Field.parseLine` from its wire line. -/
theorem Field.parseLine_toText {f : Field} (hm : f.markerFree = true)
    (hv : f.validValue = true) : Field.parseLine f.toText = some f := by
  rw [Field.markerFree, Bool.and_eq_true, List.all_eq_true] at hm
  obtain ⟨hval, hsubs⟩ := hm
  rw [Field.toText, Field.parseLine, splitFirst_append (hash_not_mem_pyStr f.tag)]
  dsimp only []
  rw [Option.some_bind, pyInt?_pyStr, Option.some_bind]
  have hvnm : '^' ∉ f.value.getD [] := by
    cases hfv : f.value with
    | none => simp
    | some v =>
      rw [hfv] at hval
      rw [List.all_eq_true] at hval
      intro hmem
      have h := hval '^' (by simpa using hmem)
      simp at h
  rw [splitCaret_flatten hsubs _ hvnm]
  dsimp only []
  rw [mapM_subFromChunk]
  have hvv : (if f.value.getD [] = [] then none else some (f.value.getD []))
      = f.value := by
    cases hfv : f.value with
    | none => rfl
    | some v =>
      rw [Field.validValue, hfv] at hv
      have hvne : v ≠ [] := by
        intro hnil
        subst hnil
        simp at hv
      simp [hvne]
  rw [Option.map_some', hvv]

/-- Modelled from the spec: `irbis/_common.py` is not under `src/`; the spec
describes the status as bit flags (logically-deleted, physically-deleted,
reserved), so the two flags are distinct single bits. -/
def LOGICALLY_DELETED : Int := 1

/-- Modelled from the spec: the physically-deleted status bit flag. -/
def PHYSICALLY_DELETED : Int := 2

/-- MARC record with MFN, status, version and fields
(`irbis/records/record.py`). -/
structure Record where
  database : Option PStr
  mfn : Int
  version : Int
  status : Int
  fields : List Field
deriving DecidableEq, Repr

/-- A freshly constructed `Record()`. -/
def Record.empty : Record :=
  { database := none, mfn := 0, version := 0, status := 0, fields := [] }

/-- `Record.encode`: line0 is `"{mfn}#{status}"`, line1 is `"0#{version}"`,
then one line per field (`irbis/records/record.py`). -/
def Record.encode (r : Record) : List PStr :=
  (pyStr r.mfn ++ '#' :: pyStr r.status) :: ('0' :: '#' :: pyStr r.version)
    :: r.fields.map Field.toText

/-- The field loop of `Record.parse`: blank lines are skipped, every other
line is parsed into one field and appended; a malformed line stops the loop
with the fields collected so far (the Python exception propagates). -/
def parseFieldLines (acc : List Field) : List PStr → List Field × Option PyErr
  | [] => (acc, none)
  | line :: rest =>
    if line = [] then parseFieldLines acc rest
    else
      match Field.parseLine line with
      | none => (acc, some PyErr.valueError)
      | some f => parseFieldLines (acc ++ [f]) rest

/-- Version line and field lines of `Record.parse`: `text[1]` splits on `#`
and its second part is the version, then the field loop runs over `text[2:]`
after `self.fields.clear()` (`irbis/records/record.py`). -/
def Record.parseTail (r : Record) (rest : List PStr) : Record × Option PyErr :=
  match rest with
  | [] => (r, some PyErr.indexError)
  | line1 :: rest2 =>
    if (splitOnChar '#' line1).length < 2 then (r, some PyErr.indexError)
    else
      match pyInt? ((splitOnChar '#' line1).getD 1 []) with
      | none => (r, some PyErr.valueError)
      | some ver =>
        let res := parseFieldLines [] rest2
        ({ r with version := ver, fields := res.1 }, res.2)

/-- `Record.parse` (`irbis/records/record.py`): the record is mutated in
place, so the result is the record state after the call together with the
exception raised, if any.  On an empty line list the `ValueError` is raised
before any assignment. -/
def Record.parseMut (r : Record) (text : List PStr) : Record × Option PyErr :=
  match text with
  | [] => (r, some PyErr.valueError)
  | line0 :: rest =>
    match pyInt? ((splitOnChar '#' line0).headD []) with
    | none => (r, some PyErr.valueError)
    | some mfn =>
      if (splitOnChar '#' line0).length ≠ 1 ∧ (splitOnChar '#' line0).getD 1 [] ≠ [] then
        match pyInt? ((splitOnChar '#' line0).getD 1 []) with
        | none => ({ r with mfn := mfn }, some PyErr.valueError)
        | some st => Record.parseTail { r with mfn := mfn, status := st } rest
      else Record.parseTail { r with mfn := mfn } rest

/-- The record produced by a successful `Record.parse`, `none` when the call
raises. -/
def Record.parse? (r : Record) (text : List PStr) : Option Record :=
  match Record.parseMut r text with
  | (r', none) => some r'
  | (_, some _) => none

/-- All fields of the record are free of the reserved subfield marker. -/
def Record.markerFree (r : Record) : Bool := r.fields.all Field.markerFree

/-- No field of the record carries an empty-string bare value. -/
def Record.validValues (r : Record) : Bool := r.fields.all Field.validValue

theorem Field.toText_ne_nil (f : Field) : f.toText ≠ [] := by
  simp [Field.toText]

theorem parseFieldLines_toText {fs : List Field}
    (hm : ∀ f ∈ fs, f.markerFree = true) (hv : ∀ f ∈ fs, f.validValue = true) :
    ∀ acc, parseFieldLines acc (fs.map Field.toText) = (acc ++ fs, none) := by
  induction fs with
  | nil => intro acc; simp [parseFieldLines]
  | cons f rest ih =>
    intro acc
    rw [List.map_cons, parseFieldLines, if_neg (Field.toText_ne_nil f),
      Field.parseLine_toText (hm f (List.mem_cons_self f rest))
        (hv f (List.mem_cons_self f rest))]
    dsimp only []
    rw [ih (fun g hg => hm g (List.mem_cons_of_mem f hg))
      (fun g hg => hv g (List.mem_cons_of_mem f hg)) (acc ++ [f])]
    rw [List.append_assoc]
    rfl

/-- Round trip at record level: parsing the encoded line list into any base
record succeeds and reproduces mfn, status, version and fields, while the
base record's database is untouched. -/
theorem Record.parseMut_encode (r : Record) (hm : r.markerFree = true)
    (hv : r.validValues = true) (base : Record) :
    Record.parseMut base r.encode =
      ({ base with
          mfn := r.mfn
          status := r.status
          version := r.version
          fields := r.fields }, none) := by
  rw [Record.markerFree, List.all_eq_true] at hm
  rw [Record.validValues, List.all_eq_true] at hv
  rw [Record.encode, Record.parseMut,
    splitOnChar_append (hash_not_mem_pyStr r.mfn),
    splitOnChar_of_not_mem (hash_not_mem_pyStr r.status)]
  simp only [List.headD_cons, List.getD_cons_succ, List.getD_cons_zero]
  rw [pyInt?_pyStr]
  dsimp only []
  rw [if_pos ⟨by simp, by simpa using pyStr_ne_nil r.status⟩, pyInt?_pyStr]
  dsimp only []
  rw [Record.parseTail]
  have hsplit1 : splitOnChar '#' ('0' :: '#' :: pyStr r.version) =
      ['0'] :: splitOnChar '#' (pyStr r.version) := by
    exact splitOnChar_append (a := ['0']) (by decide) (pyStr r.version)
  rw [hsplit1, splitOnChar_of_not_mem (hash_not_mem_pyStr r.version)]
  simp only [List.length_cons, List.length_nil, List.getD_cons_succ,
    List.getD_cons_zero]
  rw [if_neg (by omega)]
  rw [pyInt?_pyStr]
  dsimp only []
  rw [parseFieldLines_toText hm hv []]
  simp

/-- Value argument accepted by `Record.add` and the `Field` constructor:
nothing, a string, or a ready-made subfield. -/
inductive FieldArg where
  | nothing
  | str (s : PStr)
  | sub (sf : SubField)
deriving DecidableEq, Repr

/-- Modelled from the spec: the `Field` constructor — a tag plus an optional
value.  A string value is stored verbatim as the bare value after
`validate_value` (`irbis/records/abstract.py`, under `src/`) has rejected the
empty string; a `SubField` value becomes the sole subfield. -/
def mkField (tag : Int) (v : FieldArg) : Except PyErr Field :=
  match v with
  | .nothing => .ok { tag := tag, value := none, subfields := [] }
  | .str s =>
    if s = [] then .error PyErr.valueError
    else .ok { tag := tag, value := some s, subfields := [] }
  | .sub sf => .ok { tag := tag, value := none, subfields := [sf] }

/-- `Record.add` (`irbis/records/record.py`): asserts a positive tag, builds
the field, raises `ValueError` when an equal field is already present in the
record, and otherwise appends it and returns it. -/
def Record.addOp (r : Record) (tag : Int) (v : FieldArg) :
    Except PyErr (Record × Field) :=
  if tag ≤ 0 then .error PyErr.assertionError
  else
    match mkField tag v with
    | .error e => .error e
    | .ok field =>
      if field ∈ r.fields then .error PyErr.valueError
      else .ok ({ r with fields := r.fields ++ [field] }, field)

/-- `Record.first`: the first field carrying the tag, if any. -/
def Record.firstField (r : Record) (tag : Int) : Option Field :=
  r.fields.find? (fun f => f.tag == tag)

/-- Update the first list element satisfying the test, in place. -/
def updateFirst {α : Type} (p : α → Bool) (g : α → α) : List α → List α
  | [] => []
  | x :: xs => if p x then g x :: xs else x :: updateFirst p g xs

/-- Remove the first list element satisfying the test; Python's
`list.remove` at call sites where the element is known to be present. -/
def removeFirstBy {α : Type} (p : α → Bool) : List α → List α
  | [] => []
  | x :: xs => if p x then xs else x :: removeFirstBy p xs

/-- `Record.set_field` (`irbis/records/record.py`): a non-empty value is
written into the bare value of the first field with the tag, appending a
fresh field when none exists; an empty value removes that first field. -/
def Record.setFieldOp (r : Record) (tag : Int) (value : Option PStr) :
    Except PyErr Record :=
  if tag ≤ 0 then .error PyErr.assertionError
  else if value.getD [] ≠ [] then
    match r.firstField tag with
    | none =>
      .ok { r with fields :=
        (r.fields ++ [{ tag := tag, value := value, subfields := [] }]) }
    | some _ =>
      .ok { r with fields :=
        (updateFirst (fun f => f.tag == tag) (fun f => { f with value := value })
          r.fields) }
  else
    match r.firstField tag with
    | none => .ok r
    | some found =>
      .ok { r with fields := removeFirstBy (fun f => f == found) r.fields }

/-- Modelled from the spec: `Field.set_subfield` (in the missing
`irbis/records/field.py`) — a non-empty value is written into the first
subfield with the code, appending a new subfield when none exists; an empty
value removes that subfield (spec section 3: add/remove/find-by-code). -/
def Field.setSub (f : Field) (code : Char) (value : Option PStr) : Field :=
  if value.getD [] ≠ [] then
    match f.subfields.find? (fun sf => sf.code == code) with
    | some _ =>
      { f with subfields :=
        (updateFirst (fun sf => sf.code == code)
          (fun sf => { sf with value := value.getD [] }) f.subfields) }
    | none => { f with subfields := f.subfields ++ [⟨code, value.getD []⟩] }
  else
    { f with subfields := removeFirstBy (fun sf => sf.code == code) f.subfields }

/-- `Record.set_subfield` (`irbis/records/record.py`): finds the first field
with the tag, creating and appending one when the value is non-empty and no
field exists, then delegates to `Field.set_subfield`. -/
def Record.setSubfieldOp (r : Record) (tag : Int) (code : Char)
    (value : Option PStr) : Except PyErr Record :=
  if tag ≤ 0 then .error PyErr.assertionError
  else
    match r.firstField tag with
    | none =>
      if value.getD [] ≠ [] then
        .ok { r with fields :=
          (r.fields ++ [Field.setSub { tag := tag, value := none, subfields := [] }
            code value]) }
      else .ok r
    | some _ =>
      .ok { r with fields :=
        (updateFirst (fun f => f.tag == tag) (fun f => f.setSub code value)
          r.fields) }

/-- `Record.remove_field` via `__delitem__` (`irbis/records/record.py`):
asserts a positive tag and drops every field carrying it. -/
def Record.removeFieldOp (r : Record) (tag : Int) : Except PyErr Record :=
  if tag ≤ 0 then .error PyErr.assertionError
  else .ok { r with fields := r.fields.filter (fun f => f.tag != tag) }

/-- The optional bare-value argument of `insert_at`, as a constructor
argument. -/
def fieldArgOfOpt : Option PStr → FieldArg
  | none => FieldArg.nothing
  | some s => FieldArg.str s

/-- `Record.insert_at` (`irbis/records/record.py`): asserts the index is in
range and the tag positive, builds the field and inserts it. -/
def Record.insertAtOp (r : Record) (index : Nat) (tag : Int)
    (value : Option PStr) : Except PyErr (Record × Field) :=
  if index < r.fields.length ∧ 0 < tag then
    match mkField tag (fieldArgOfOpt value) with
    | .error e => .error e
    | .ok f => .ok ({ r with fields := r.fields.insertIdx index f }, f)
  else .error PyErr.assertionError

/-- `Record.clear` (`irbis/records/record.py`): drops all fields. -/
def Record.clearOp (r : Record) : Record := { r with fields := [] }

/-- Modelled from the spec: Python truthiness of a `Field` object (the
missing `irbis/records/field.py`): a field with neither bare value nor
subfields is falsy. -/
def Field.truthy (f : Field) : Bool := f.value.isSome || f.subfields ≠ []

/-- Right-hand sides accepted by `Record.__setitem__`: a plain value, one
`Field`, a list of `Field`s, or a list of plain values. -/
inductive SetArg where
  | one (v : FieldArg)
  | fld (f : Field)
  | flds (l : List Field)
  | vals (l : List FieldArg)
deriving DecidableEq, Repr

/-- Ready-made `Field` objects handed to `__setitem__` come from the `Field`
API, whose `validate_value` (`irbis/records/abstract.py`) rules out
empty-string bare values. -/
def SetArg.valid : SetArg → Bool
  | .fld f => f.validValue
  | .flds l => l.all Field.validValue
  | _ => true

/-- One field per plain value, as the list comprehension in `__setitem__`
builds them; the first constructor error propagates. -/
def mkFields (key : Int) : List FieldArg → Except PyErr (List Field)
  | [] => .ok []
  | a :: as =>
    match mkField key a with
    | .error e => .error e
    | .ok f =>
      match mkFields key as with
      | .error e => .error e
      | .ok fs => .ok (f :: fs)

/-- `Record.__setitem__` (`irbis/records/record.py`): removes every field
with the key, then — when the value is truthy — appends the given field(s),
or fields built from the given plain value(s). -/
def Record.setItemOp (r : Record) (key : Int) (value : SetArg) :
    Except PyErr Record :=
  match Record.removeFieldOp r key with
  | .error e => .error e
  | .ok r1 =>
    match value with
    | .one .nothing => .ok r1
    | .one (.str s) =>
      if s = [] then .ok r1
      else
        match mkField key (.str s) with
        | .error e => .error e
        | .ok f => .ok { r1 with fields := r1.fields ++ [f] }
    | .one (.sub sf) =>
      match mkField key (.sub sf) with
      | .error e => .error e
      | .ok f => .ok { r1 with fields := r1.fields ++ [f] }
    | .fld f =>
      if f.truthy then .ok { r1 with fields := r1.fields ++ [f] } else .ok r1
    | .flds l => .ok { r1 with fields := r1.fields ++ l }
    | .vals l =>
      match mkFields key l with
      | .error e => .error e
      | .ok fs => .ok { r1 with fields := r1.fields ++ fs }

/-- Records reachable from a fresh `Record()` through the public mutation
API of `irbis/records/record.py`: `add`, `set_field`, `set_subfield`,
`remove_field`, `insert_at`, `clear`, `__setitem__` and `parse` (the latter
including its failure states, since the partially mutated object survives
the exception). -/
inductive Reachable : Record → Prop where
  | empty : Reachable Record.empty
  | add {r tag v r' f} : Reachable r →
      Record.addOp r tag v = .ok (r', f) → Reachable r'
  | setField {r tag value r'} : Reachable r →
      Record.setFieldOp r tag value = .ok r' → Reachable r'
  | setSubfield {r tag code value r'} : Reachable r →
      Record.setSubfieldOp r tag code value = .ok r' → Reachable r'
  | removeField {r tag r'} : Reachable r →
      Record.removeFieldOp r tag = .ok r' → Reachable r'
  | insertAt {r i tag value r' f} : Reachable r →
      Record.insertAtOp r i tag value = .ok (r', f) → Reachable r'
  | clear {r} : Reachable r → Reachable (Record.clearOp r)
  | setItem {r key value r'} : Reachable r → SetArg.valid value = true →
      Record.setItemOp r key value = .ok r' → Reachable r'
  | parse {r text r' e} : Reachable r →
      Record.parseMut r text = (r', e) → Reachable r'

theorem mem_updateFirst {α : Type} {p : α → Bool} {g : α → α} {l : List α} {x : α}
    (hx : x ∈ updateFirst p g l) : x ∈ l ∨ ∃ y ∈ l, x = g y := by
  induction l with
  | nil => exact absurd hx (List.not_mem_nil x)
  | cons a as ih =>
    rw [updateFirst] at hx
    by_cases hp : p a
    · rw [if_pos hp, List.mem_cons] at hx
      rcases hx with hx | hx
      · exact Or.inr ⟨a, List.mem_cons_self a as, hx⟩
      · exact Or.inl (List.mem_cons_of_mem a hx)
    · rw [if_neg hp, List.mem_cons] at hx
      rcases hx with hx | hx
      · exact Or.inl (hx ▸ List.mem_cons_self a as)
      · rcases ih hx with hy | ⟨y, hy, hxy⟩
        · exact Or.inl (List.mem_cons_of_mem a hy)
        · exact Or.inr ⟨y, List.mem_cons_of_mem a hy, hxy⟩

theorem mem_removeFirstBy {α : Type} {p : α → Bool} {l : List α} {x : α}
    (hx : x ∈ removeFirstBy p l) : x ∈ l := by
  induction l with
  | nil => exact absurd hx (List.not_mem_nil x)
  | cons a as ih =>
    rw [removeFirstBy] at hx
    by_cases hp : p a
    · rw [if_pos hp] at hx
      exact List.mem_cons_of_mem a hx
    · rw [if_neg hp, List.mem_cons] at hx
      rcases hx with hx | hx
      · exact hx ▸ List.mem_cons_self a as
      · exact List.mem_cons_of_mem a (ih hx)

theorem mkField_valid {tag : Int} {v : FieldArg} {f : Field}
    (h : mkField tag v = .ok f) : f.validValue = true := by
  cases v with
  | nothing =>
    rw [mkField] at h
    cases h
    rfl
  | str s =>
    rw [mkField] at h
    by_cases hs : s = []
    · rw [if_pos hs] at h
      exact absurd h (by simp)
    · rw [if_neg hs] at h
      cases h
      simp [Field.validValue, hs]
  | sub sf =>
    rw [mkField] at h
    cases h
    rfl

theorem Field.setSub_value (f : Field) (code : Char) (value : Option PStr) :
    (f.setSub code value).value = f.value := by
  rw [Field.setSub]
  by_cases h : value.getD [] ≠ []
  · rw [if_pos h]
    cases f.subfields.find? (fun sf => sf.code == code) <;> rfl
  · rw [if_neg h]

theorem Field.setSub_valid {f : Field} (hf : f.validValue = true)
    (code : Char) (value : Option PStr) :
    (f.setSub code value).validValue = true := by
  rw [Field.validValue] at hf ⊢
  rw [Field.setSub_value]
  exact hf

theorem parseLine_valid {line : PStr} {f : Field}
    (h : Field.parseLine line = some f) : f.validValue = true := by
  rw [Field.parseLine] at h
  rcases hsp : (splitFirst '#' line).2 with _ | body
  · rw [hsp] at h
    exact absurd h (by simp)
  · rw [hsp, Option.some_bind] at h
    rcases hti : pyInt? (splitFirst '#' line).1 with _ | tag
    · rw [hti] at h
      exact absurd h (by simp)
    · rw [hti, Option.some_bind] at h
      rcases hso : splitOnChar '^' body with _ | ⟨bare, chunks⟩
      · rw [hso] at h
        exact absurd h (by simp)
      · rw [hso] at h
        dsimp only [] at h
        rcases hmm : chunks.mapM subFromChunk with _ | subs
        · rw [hmm] at h
          exact absurd h (by simp)
        · rw [hmm, Option.map_some'] at h
          cases h
          rw [Field.validValue]
          by_cases hb : bare = []
          · simp [hb]
          · simp [hb]

theorem parseFieldLines_valid :
    ∀ (lines : List PStr) (acc : List Field),
      (∀ f ∈ acc, f.validValue = true) →
      ∀ f ∈ (parseFieldLines acc lines).1, f.validValue = true := by
  intro lines
  induction lines with
  | nil => intro acc hacc f hf; exact hacc f hf
  | cons line rest ih =>
    intro acc hacc f hf
    rw [parseFieldLines] at hf
    by_cases hl : line = []
    · rw [if_pos hl] at hf
      exact ih acc hacc f hf
    · rw [if_neg hl] at hf
      cases hpl : Field.parseLine line with
      | none =>
        rw [hpl] at hf
        exact hacc f hf
      | some g =>
        rw [hpl] at hf
        refine ih (acc ++ [g]) ?_ f hf
        intro x hx
        rcases List.mem_append.mp hx with hx | hx
        · exact hacc x hx
        · rw [List.mem_singleton] at hx
          subst hx
          exact parseLine_valid hpl

theorem parseTail_valid {r : Record} {rest : List PStr} {r' : Record}
    {e : Option PyErr} (h : Record.parseTail r rest = (r', e))
    (hr : r.validValues = true) : r'.validValues = true := by
  cases rest with
  | nil =>
    rw [Record.parseTail] at h
    cases h
    exact hr
  | cons line1 rest2 =>
    rw [Record.parseTail] at h
    by_cases hlen : (splitOnChar '#' line1).length < 2
    · rw [if_pos hlen] at h
      cases h
      exact hr
    · rw [if_neg hlen] at h
      cases hv : pyInt? ((splitOnChar '#' line1).getD 1 []) with
      | none =>
        rw [hv] at h
        cases h
        exact hr
      | some ver =>
        rw [hv] at h
        cases h
        rw [Record.validValues, List.all_eq_true]
        exact parseFieldLines_valid rest2 [] (by intro f hf; exact absurd hf (List.not_mem_nil f))

theorem parseMut_valid {r : Record} {text : List PStr} {r' : Record}
    {e : Option PyErr} (h : Record.parseMut r text = (r', e))
    (hr : r.validValues = true) : r'.validValues = true := by
  cases text with
  | nil =>
    rw [Record.parseMut] at h
    cases h
    exact hr
  | cons line0 rest =>
    rw [Record.parseMut] at h
    cases hm : pyInt? ((splitOnChar '#' line0).headD []) with
    | none =>
      rw [hm] at h
      cases h
      exact hr
    | some mfn =>
      rw [hm] at h
      dsimp only [] at h
      by_cases hcond : (splitOnChar '#' line0).length ≠ 1 ∧
          (splitOnChar '#' line0).getD 1 [] ≠ []
      · rw [if_pos hcond] at h
        cases hs : pyInt? ((splitOnChar '#' line0).getD 1 []) with
        | none =>
          rw [hs] at h
          cases h
          exact hr
        | some st =>
          rw [hs] at h
          exact parseTail_valid h hr
      · rw [if_neg hcond] at h
        exact parseTail_valid h hr

theorem validValue_of_truthy {value : Option PStr} (hv : value.getD [] ≠ []) :
    (decide (value ≠ some ([] : PStr))) = true := by
  cases value with
  | none => simp
  | some v =>
    simp only [Option.getD] at hv
    simp [hv]

theorem addOp_valid {r : Record} {tag : Int} {v : FieldArg} {r' : Record}
    {f : Field} (h : Record.addOp r tag v = .ok (r', f))
    (hr : r.validValues = true) : r'.validValues = true := by
  rw [Record.addOp] at h
  by_cases ht : tag ≤ 0
  · rw [if_pos ht] at h
    exact absurd h (by simp)
  · rw [if_neg ht] at h
    cases hmk : mkField tag v with
    | error e =>
      rw [hmk] at h
      exact absurd h (by simp)
    | ok fld =>
      rw [hmk] at h
      dsimp only [] at h
      by_cases hmem : fld ∈ r.fields
      · rw [if_pos hmem] at h
        exact absurd h (by simp)
      · rw [if_neg hmem] at h
        rw [Except.ok.injEq, Prod.mk.injEq] at h
        obtain ⟨h1, h2⟩ := h
        subst h1
        rw [Record.validValues, List.all_eq_true] at hr ⊢
        intro x hx
        rcases List.mem_append.mp hx with hx | hx
        · exact hr x hx
        · rw [List.mem_singleton] at hx
          subst hx
          exact mkField_valid hmk

theorem setFieldOp_valid {r : Record} {tag : Int} {value : Option PStr}
    {r' : Record} (h : Record.setFieldOp r tag value = .ok r')
    (hr : r.validValues = true) : r'.validValues = true := by
  rw [Record.setFieldOp] at h
  by_cases ht : tag ≤ 0
  · rw [if_pos ht] at h
    exact absurd h (by simp)
  · rw [if_neg ht] at h
    by_cases hv : value.getD [] ≠ []
    · rw [if_pos hv] at h
      cases hff : r.firstField tag with
      | none =>
        rw [hff] at h
        cases h
        rw [Record.validValues, List.all_eq_true] at hr ⊢
        intro x hx
        rcases List.mem_append.mp hx with hx | hx
        · exact hr x hx
        · rw [List.mem_singleton] at hx
          subst hx
          exact validValue_of_truthy hv
      | some fnd =>
        rw [hff] at h
        cases h
        rw [Record.validValues, List.all_eq_true] at hr ⊢
        intro x hx
        rcases mem_updateFirst hx with hx | ⟨y, hy, hxy⟩
        · exact hr x hx
        · subst hxy
          exact validValue_of_truthy hv
    · rw [if_neg hv] at h
      cases hff : r.firstField tag with
      | none =>
        rw [hff] at h
        cases h
        exact hr
      | some fnd =>
        rw [hff] at h
        cases h
        rw [Record.validValues, List.all_eq_true] at hr ⊢
        intro x hx
        exact hr x (mem_removeFirstBy hx)

theorem setSubfieldOp_valid {r : Record} {tag : Int} {code : Char}
    {value : Option PStr} {r' : Record}
    (h : Record.setSubfieldOp r tag code value = .ok r')
    (hr : r.validValues = true) : r'.validValues = true := by
  rw [Record.setSubfieldOp] at h
  by_cases ht : tag ≤ 0
  · rw [if_pos ht] at h
    exact absurd h (by simp)
  · rw [if_neg ht] at h
    cases hff : r.firstField tag with
    | none =>
      rw [hff] at h
      dsimp only [] at h
      by_cases hv : value.getD [] ≠ []
      · rw [if_pos hv] at h
        cases h
        rw [Record.validValues, List.all_eq_true] at hr ⊢
        intro x hx
        rcases List.mem_append.mp hx with hx | hx
        · exact hr x hx
        · rw [List.mem_singleton] at hx
          subst hx
          refine Field.setSub_valid ?_ code value
          rfl
      · rw [if_neg hv] at h
        cases h
        exact hr
    | some fnd =>
      rw [hff] at h
      cases h
      rw [Record.validValues, List.all_eq_true] at hr ⊢
      intro x hx
      rcases mem_updateFirst hx with hx | ⟨y, hy, hxy⟩
      · exact hr x hx
      · subst hxy
        exact Field.setSub_valid (hr y hy) code value

theorem removeFieldOp_valid {r : Record} {tag : Int} {r' : Record}
    (h : Record.removeFieldOp r tag = .ok r')
    (hr : r.validValues = true) : r'.validValues = true := by
  rw [Record.removeFieldOp] at h
  by_cases ht : tag ≤ 0
  · rw [if_pos ht] at h
    exact absurd h (by simp)
  · rw [if_neg ht] at h
    cases h
    rw [Record.validValues, List.all_eq_true] at hr ⊢
    intro x hx
    exact hr x (List.mem_of_mem_filter hx)

theorem insertAtOp_valid {r : Record} {i : Nat} {tag : Int}
    {value : Option PStr} {r' : Record} {f : Field}
    (h : Record.insertAtOp r i tag value = .ok (r', f))
    (hr : r.validValues = true) : r'.validValues = true := by
  rw [Record.insertAtOp] at h
  by_cases hc : i < r.fields.length ∧ 0 < tag
  · rw [if_pos hc] at h
    cases hmk : mkField tag (fieldArgOfOpt value) with
    | error e =>
      rw [hmk] at h
      exact absurd h (by simp)
    | ok fld =>
      rw [hmk] at h
      rw [Except.ok.injEq, Prod.mk.injEq] at h
      obtain ⟨h1, h2⟩ := h
      subst h1
      rw [Record.validValues, List.all_eq_true] at hr ⊢
      intro x hx
      rcases (List.mem_insertIdx (Nat.le_of_lt hc.1)).mp hx with hx | hx
      · subst hx
        exact mkField_valid hmk
      · exact hr x hx
  · rw [if_neg hc] at h
    exact absurd h (by simp)

theorem mkFields_valid {key : Int} :
    ∀ {l : List FieldArg} {fs : List Field},
      mkFields key l = .ok fs → ∀ f ∈ fs, f.validValue = true := by
  intro l
  induction l with
  | nil =>
    intro fs h f hf
    cases h
    exact absurd hf (List.not_mem_nil f)
  | cons a as ih =>
    intro fs h f hf
    rw [mkFields] at h
    cases hma : mkField key a with
    | error e =>
      rw [hma] at h
      exact absurd h (by simp)
    | ok fld =>
      rw [hma] at h
      dsimp only [] at h
      cases hmas : mkFields key as with
      | error e =>
        rw [hmas] at h
        exact absurd h (by simp)
      | ok rest =>
        rw [hmas] at h
        cases h
        rcases List.mem_cons.mp hf with hf | hf
        · subst hf
          exact mkField_valid hma
        · exact ih hmas f hf

theorem setItemOp_valid {r : Record} {key : Int} {value : SetArg} {r' : Record}
    (hval : SetArg.valid value = true)
    (h : Record.setItemOp r key value = .ok r')
    (hr : r.validValues = true) : r'.validValues = true := by
  rw [Record.setItemOp] at h
  cases hrm : Record.removeFieldOp r key with
  | error e =>
    rw [hrm] at h
    exact absurd h (by simp)
  | ok r1 =>
    rw [hrm] at h
    have hr1 : r1.validValues = true := removeFieldOp_valid hrm hr
    dsimp only [] at h
    have happ : ∀ (l : List Field), (∀ f ∈ l, f.validValue = true) →
        ({ r1 with fields := r1.fields ++ l } : Record).validValues = true := by
      intro l hl
      rw [Record.validValues, List.all_eq_true]
      intro x hx
      rcases List.mem_append.mp hx with hx | hx
      · rw [Record.validValues, List.all_eq_true] at hr1
        exact hr1 x hx
      · exact hl x hx
    cases value with
    | one v =>
      cases v with
      | nothing =>
        cases h
        exact hr1
      | str s =>
        dsimp only [] at h
        by_cases hs : s = []
        · rw [if_pos hs] at h
          cases h
          exact hr1
        · rw [if_neg hs] at h
          cases hmk : mkField key (FieldArg.str s) with
          | error e =>
            rw [hmk] at h
            exact absurd h (by simp)
          | ok fld =>
            rw [hmk] at h
            cases h
            refine happ [fld] ?_
            intro x hx
            rw [List.mem_singleton] at hx
            subst hx
            exact mkField_valid hmk
      | sub sf =>
        dsimp only [] at h
        cases hmk : mkField key (FieldArg.sub sf) with
        | error e =>
          rw [hmk] at h
          exact absurd h (by simp)
        | ok fld =>
          rw [hmk] at h
          cases h
          refine happ [fld] ?_
          intro x hx
          rw [List.mem_singleton] at hx
          subst hx
          exact mkField_valid hmk
    | fld f =>
      dsimp only [] at h
      by_cases hf : f.truthy
      · rw [if_pos hf] at h
        cases h
        refine happ [f] ?_
        intro x hx
        rw [List.mem_singleton] at hx
        subst hx
        exact hval
      · rw [if_neg hf] at h
        cases h
        exact hr1
    | flds l =>
      cases h
      refine happ l ?_
      rw [SetArg.valid, List.all_eq_true] at hval
      exact hval
    | vals l =>
      dsimp only [] at h
      cases hml : mkFields key l with
      | error e =>
        rw [hml] at h
        exact absurd h (by simp)
      | ok fs =>
        rw [hml] at h
        cases h
        exact happ fs (mkFields_valid hml)

/-- Every record reachable through the public mutation API has only valid
bare values (no empty-string value), the invariant `validate_value` and the
parser jointly maintain. -/
theorem Reachable.valid {r : Record} (h : Reachable r) : r.validValues = true := by
  induction h with
  | empty => rfl
  | add _ hop ih => exact addOp_valid hop ih
  | setField _ hop ih => exact setFieldOp_valid hop ih
  | setSubfield _ hop ih => exact setSubfieldOp_valid hop ih
  | removeField _ hop ih => exact removeFieldOp_valid hop ih
  | insertAt _ hop ih => exact insertAtOp_valid hop ih
  | clear _ _ => rfl
  | setItem _ hval hop ih => exact setItemOp_valid hval hop ih
  | parse _ hop ih => exact parseMut_valid hop ih

/-- C1 (amended): for every record reachable via the public mutation API in
which no field value, subfield code or subfield value contains the reserved
subfield marker `^`, `parse` applied to the line list produced by `encode`
succeeds and yields a record with the same mfn, status, version and ordered
field/subfield content; the database attribute is no part of the encoded
line stream. -/
theorem record_roundtrip_amended {r : Record} (h : Reachable r)
    (hm : r.markerFree = true) :
    (∀ base : Record, Record.parse? base r.encode =
      some { base with
              mfn := r.mfn
              status := r.status
              version := r.version
              fields := r.fields })
    ∧ (∀ d : Option PStr, Record.encode { r with database := d } = Record.encode r) := by
  constructor
  · intro base
    rw [Record.parse?, Record.parseMut_encode r hm (Reachable.valid h) base]
  · intro d
    rfl

/-- The record built by `add(200, SubField('a', "x^y"))`. -/
def rBad : Record := ⟨none, 0, 0, 0, [⟨200, none, [⟨'a', ['x', '^', 'y']⟩]⟩]⟩

/-- C1 (counterexample): the record built by `add(200, SubField('a', "x^y"))`
is reachable via the public mutation API, yet parsing its encoding does not
reproduce its fields — the `^` inside the stored subfield value is re-read
as a subfield marker, so the round trip of the claim fails as stated. -/
theorem record_roundtrip_counterexample :
    Record.addOp Record.empty 200 (FieldArg.sub ⟨'a', ['x', '^', 'y']⟩)
      = Except.ok (rBad, ⟨200, none, [⟨'a', ['x', '^', 'y']⟩]⟩)
    ∧ Reachable rBad
    ∧ (Record.parse? Record.empty rBad.encode).map Record.fields ≠ some rBad.fields := by
  refine ⟨by decide, ?_, by decide⟩
  have hadd : Record.addOp Record.empty 200 (FieldArg.sub ⟨'a', ['x', '^', 'y']⟩)
      = Except.ok (rBad, ⟨200, none, [⟨'a', ['x', '^', 'y']⟩]⟩) := by decide
  exact Reachable.add Reachable.empty hadd

/-- The record after `add(200, 'Title')`. -/
def rTitle : Record :=
  ⟨none, 0, 0, 0, [⟨200, some ['T', 'i', 't', 'l', 'e'], []⟩]⟩

/-- The record of the spec's own example: tag 200, bare value `Title`,
subfield `a` with value `Sub`, built by `add` then `set_subfield`. -/
def rGood : Record :=
  ⟨none, 0, 0, 0, [⟨200, some ['T', 'i', 't', 'l', 'e'], [⟨'a', ['S', 'u', 'b']⟩]⟩]⟩

theorem record_roundtrip_amended_witness :
    Record.parse? Record.empty rGood.encode =
      some { Record.empty with
              mfn := rGood.mfn
              status := rGood.status
              version := rGood.version
              fields := rGood.fields } := by
  have h1 : Record.addOp Record.empty 200 (FieldArg.str ['T', 'i', 't', 'l', 'e'])
      = Except.ok (rTitle, ⟨200, some ['T', 'i', 't', 'l', 'e'], []⟩) := by
    decide
  have h2 : Record.setSubfieldOp rTitle 200 'a' (some ['S', 'u', 'b'])
      = Except.ok rGood := by
    decide
  have hreach : Reachable rGood :=
    Reachable.setSubfield (Reachable.add Reachable.empty h1) h2
  exact (record_roundtrip_amended hreach (by decide)).1 Record.empty

/-- C6: `Record.parse` applied to an empty line list raises `ValueError` and
leaves mfn, status, version and fields untouched; `parse` never succeeds on
empty input. -/
theorem record_parse_empty_fails (r : Record) :
    Record.parseMut r [] = (r, some PyErr.valueError)
    ∧ Record.parse? r [] = none :=
  ⟨rfl, rfl⟩

/-- C10: with a positive tag, `Record.add` raises `ValueError` exactly when
a field equal to the newly constructed one is already present — producing no
modified record, so the field list is unchanged — and appends the new field
otherwise. -/
theorem record_add_duplicate {r : Record} {tag : Int} {v : FieldArg}
    {f : Field} (htag : 0 < tag) (hmk : mkField tag v = .ok f) :
    Record.addOp r tag v =
      (if f ∈ r.fields then .error PyErr.valueError
       else .ok ({ r with fields := r.fields ++ [f] }, f)) := by
  rw [Record.addOp, if_neg (by omega), hmk]

theorem record_add_duplicate_witness :
    Record.addOp (⟨none, 0, 0, 0, [⟨200, some ['t'], []⟩]⟩ : Record)
      200 (FieldArg.str ['t']) = .error PyErr.valueError := by
  have h1 : (0 : Int) < 200 := by decide
  have h2 : mkField 200 (FieldArg.str ['t'])
      = Except.ok (⟨200, some ['t'], []⟩ : Field) := by
    decide
  exact record_add_duplicate h1 h2

/-- `Record.is_deleted` (`irbis/records/record.py`): the record counts as
deleted when the logically- or physically-deleted status bit is set. -/
def Record.isDeleted (r : Record) : Bool :=
  Int.land r.status (Int.lor LOGICALLY_DELETED PHYSICALLY_DELETED) ≠ 0

/-- `Connection.delete_record` (`irbis/connection.py`) after reading the
record: when it is not already deleted, only the logically-deleted status
bit is set (`record.status |= LOGICALLY_DELETED`) and the record is written
back with `dont_parse=True`; otherwise nothing is written. -/
def deleteRecordWrite (record : Record) : Option Record :=
  if record.isDeleted then none
  else some { record with status := Int.lor record.status LOGICALLY_DELETED }

/-- `Connection.undelete_record` (`irbis/connection.py`) after reading the
record: when it is deleted, the logically-deleted bit is cleared
(`record.status &= ~LOGICALLY_DELETED`) and the record is written back with
`dont_parse=True`; otherwise nothing is written. -/
def undeleteRecordWrite (record : Record) : Option Record :=
  if record.isDeleted then
    some { record with
           status := Int.land record.status (Int.lnot LOGICALLY_DELETED) }
  else none

theorem natTestBit_one {k : Nat} (hk : k ≠ 0) : Nat.testBit 1 k = false := by
  cases k with
  | zero => omega
  | succ j =>
    rw [Nat.testBit_succ]
    simp

theorem intTestBit_LD {k : Nat} (hk : k ≠ 0) :
    Int.testBit LOGICALLY_DELETED k = false := by
  show Nat.testBit 1 k = false
  exact natTestBit_one hk

theorem status_bit0_of_not_deleted {r : Record} (h : r.isDeleted = false) :
    r.status.testBit 0 = false := by
  rw [Record.isDeleted, decide_eq_false_iff_not, not_not] at h
  have h0 : Int.testBit
      (Int.land r.status (Int.lor LOGICALLY_DELETED PHYSICALLY_DELETED)) 0
      = false := by
    rw [h]
    decide
  rw [Int.testBit_land] at h0
  have h30 : Int.testBit (Int.lor LOGICALLY_DELETED PHYSICALLY_DELETED) 0 = true := by
    decide
  rw [h30, Bool.and_true] at h0
  exact h0

theorem land_lnot_of_lor_one {s : Int} (h : s.testBit 0 = false) :
    Int.land (Int.lor s LOGICALLY_DELETED) (Int.lnot LOGICALLY_DELETED) = s := by
  cases s with
  | ofNat m =>
    have hm : Nat.testBit m 0 = false := h
    show (Int.ofNat (Nat.ldiff (m ||| 1) 1)) = Int.ofNat m
    refine congrArg Int.ofNat (Nat.eq_of_testBit_eq fun i => ?_)
    rw [Nat.testBit_ldiff, Nat.testBit_lor]
    by_cases hi : i = 0
    · subst hi
      rw [hm]
      decide
    · rw [natTestBit_one hi]
      simp
  | negSucc m =>
    have hb : (!(Nat.testBit m 0)) = false := h
    have hm : Nat.testBit m 0 = true := by simpa using hb
    show Int.negSucc (Nat.ldiff m 1 ||| 1) = Int.negSucc m
    refine congrArg Int.negSucc (Nat.eq_of_testBit_eq fun i => ?_)
    rw [Nat.testBit_lor, Nat.testBit_ldiff]
    by_cases hi : i = 0
    · subst hi
      rw [hm]
      decide
    · rw [natTestBit_one hi]
      simp

theorem deleted_after_setting_bit (s : Int) :
    Int.land (Int.lor s LOGICALLY_DELETED)
      (Int.lor LOGICALLY_DELETED PHYSICALLY_DELETED) ≠ 0 := by
  intro heq
  have h0 := congrArg (fun t => Int.testBit t 0) heq
  simp only [Int.testBit_land, Int.testBit_lor] at h0
  have h1 : Int.testBit LOGICALLY_DELETED 0 = true := by decide
  have h2 : Int.testBit PHYSICALLY_DELETED 0 = false := by decide
  have h3 : Int.testBit 0 0 = false := by decide
  rw [h1, h2, h3, Bool.or_true, Bool.or_false, Bool.true_and] at h0
  exact absurd h0 (by decide)

/-- C9: on a record that is not yet deleted, `delete_record` writes back
(with `dont_parse`) the very record it read with only the logically-deleted
status bit newly set — fields, mfn, version and database untouched and every
other status bit unchanged — and `undelete_record` applied to that deleted
record clears exactly that bit, restoring the original status: a
read–delete–read cycle changes the status by exactly the logically-deleted
flag and nothing else. -/
theorem delete_undelete_status_bit {r : Record} (h : r.isDeleted = false) :
    deleteRecordWrite r =
      some { r with status := Int.lor r.status LOGICALLY_DELETED }
    ∧ (Int.lor r.status LOGICALLY_DELETED).testBit 0 = true
    ∧ (∀ k : Nat, k ≠ 0 →
        (Int.lor r.status LOGICALLY_DELETED).testBit k = r.status.testBit k)
    ∧ undeleteRecordWrite
        { r with status := Int.lor r.status LOGICALLY_DELETED } = some r := by
  refine ⟨?_, ?_, ?_, ?_⟩
  · rw [deleteRecordWrite, if_neg (by rw [h]; exact Bool.false_ne_true)]
  · rw [Int.testBit_lor]
    have h1 : Int.testBit LOGICALLY_DELETED 0 = true := by decide
    rw [h1, Bool.or_true]
  · intro k hk
    rw [Int.testBit_lor, intTestBit_LD hk, Bool.or_false]
  · have hdel : Record.isDeleted
        { r with status := Int.lor r.status LOGICALLY_DELETED } = true := by
      rw [Record.isDeleted]
      exact decide_eq_true (deleted_after_setting_bit r.status)
    rw [undeleteRecordWrite, if_pos hdel]
    rw [show Int.land (Int.lor r.status LOGICALLY_DELETED)
        (Int.lnot LOGICALLY_DELETED) = r.status from
      land_lnot_of_lor_one (status_bit0_of_not_deleted h)]

/-- A concrete record for the delete/undelete cycle. -/
def rDel : Record := ⟨none, 5, 2, 0, [⟨100, some ['x'], []⟩]⟩

theorem delete_undelete_status_bit_witness :
    deleteRecordWrite rDel =
      some { rDel with status := Int.lor rDel.status LOGICALLY_DELETED }
    ∧ undeleteRecordWrite
        { rDel with status := Int.lor rDel.status LOGICALLY_DELETED }
        = some rDel :=
  ⟨(delete_undelete_status_bit (by decide)).1,
   (delete_undelete_status_bit (by decide)).2.2.2⟩

/-- Modelled from the spec: `irbis/ini.py` is not under `src/`; section 6
describes the collaborator as `TextFileParser(lines)` returning a structured
object.  The embedding keeps the parsed lines. -/
structure IniFile where
  lines : List PStr
deriving DecidableEq, Repr

/-- Modelled from the spec: `IniFile.parse(lines)` — the text-file parser
collaborator applied to decoded lines (spec sections 4.5 and 6). -/
def IniFile.parse (lines : List PStr) : IniFile := ⟨lines⟩

/-- Modelled from the spec: `irbis_to_lines` from the missing
`irbis/_common.py` — text splits on the two-character protocol line
delimiter `\x1F\x1E`; like Python `split`, the result is never empty. -/
def irbisToLines : PStr → List PStr
  | [] => [[]]
  | [c] => [[c]]
  | c1 :: c2 :: rest =>
    if c1 = '\x1f' ∧ c2 = '\x1e' then [] :: irbisToLines rest
    else
      match irbisToLines (c2 :: rest) with
      | [] => [[c1]]
      | y :: ys => (c1 :: y) :: ys

/-- Modelled from the spec: Python `str.splitlines` on the line endings that
occur in this protocol (`\r\n`, `\r`, `\n`); empty input gives no lines and
a trailing terminator adds none. -/
def pySplitlines : PStr → List PStr
  | [] => []
  | '\r' :: '\n' :: rest => [] :: pySplitlines rest
  | '\n' :: rest => [] :: pySplitlines rest
  | '\r' :: rest => [] :: pySplitlines rest
  | c :: rest =>
    match pySplitlines rest with
    | [] => [[c]]
    | y :: ys => (c :: y) :: ys

/-- Modelled from the spec: a registration response as the session consumes
it — return code, server version from the response header, and the
remaining ANSI text that carries the INI preamble (`irbis/response.py` is
not under `src/`). -/
structure RegResponse where
  code : Int
  version : PStr
  remaining : PStr
deriving DecidableEq, Repr

/-- The `Connection` session state (`irbis/connection.py`): credentials,
current database, workstation, client id, query id, connected flag,
database stack, last negotiated server version and INI file, last error. -/
structure Session where
  host : PStr
  port : Int
  username : PStr
  password : PStr
  database : PStr
  workstation : PStr
  client_id : Int
  query_id : Int
  connected : Bool
  stack : List PStr
  server_version : Option PStr
  ini_file : IniFile
  last_error : Int
deriving DecidableEq, Repr

/-- Modelled from the spec: constructing a `ClientQuery` seeds the preamble
and increments the session's query id (`irbis/query.py` is not under
`src/`; spec section 4.1: "query id (incremented)"). -/
def Session.newQuery (s : Session) : Session :=
  { s with query_id := s.query_id + 1 }

/-- `Connection._connect` (`irbis/connection.py`): store the server version,
split the remaining ANSI text on the protocol delimiter, take the first
element, drop that element's first physical line, parse the rest as the INI
file, set `connected := true`, cache and return the INI file. -/
def Session.connectFinish (s : Session) (resp : RegResponse) :
    Session × IniFile :=
  let text := irbisToLines resp.remaining
  let line := text.headD []
  let t := (pySplitlines line).drop 1
  let ini := IniFile.parse t
  ({ s with
      server_version := some resp.version
      connected := true
      ini_file := ini }, ini)

/-- Outcome of `connect`: success with the number of registration requests
sent, a configuration error raised before any I/O, or a response stream that
ran out — the real loop would still be waiting on the network. -/
inductive ConnectResult where
  | ok (s : Session) (ini : IniFile) (requests : Nat)
  | err (e : PyErr)
  | starved
deriving DecidableEq, Repr

/-- The registration retry loop of `SyncConnection.connect`
(`irbis/connection/sync_connection.py`): each iteration resets the query id
to `0`, draws the next random client id, builds the registration query
(which increments the query id to `1`) and executes it (clearing
`last_error`) against the next response of the stream; a `-3337` return
code discards the response and retries, any other code finishes through
`_connect`. -/
def connectLoop (s : Session) :
    List (Int × RegResponse) → ConnectResult
  | [] => .starved
  | (cid, resp) :: rest =>
    let s1 := { s with query_id := 0, client_id := cid }
    let s2 := s1.newQuery
    let s3 := { s2 with last_error := 0 }
    if resp.code = -3337 then
      match connectLoop s3 rest with
      | .ok s' ini n => .ok s' ini (n + 1)
      | other => other
    else
      let fin := s3.connectFinish resp
      .ok fin.1 fin.2 1

/-- `SyncConnection.connect` (`irbis/connection/sync_connection.py`) with
its default `None` arguments: a connected session returns the cached INI
file at once, sending nothing; otherwise every credential must be non-empty
(`throw_value_error`) before the retry loop runs against the stream of
(random client id, server response) pairs. -/
def Session.connect (s : Session) (attempts : List (Int × RegResponse)) :
    ConnectResult :=
  if s.connected then .ok s s.ini_file 0
  else if s.host = [] ∨ s.port = 0 ∨ s.username = [] ∨ s.password = []
      ∨ s.database = [] then .err PyErr.valueError
  else connectLoop s attempts

/-- `SyncConnection.disconnect` (`irbis/connection/sync_connection.py`):
nothing happens when not connected; otherwise the unregister query is built
(incrementing the query id) and executed — `execute` clears `last_error`
and then opens the socket, so a transport failure propagates after those
mutations and before `connected` is cleared; only a successful exchange
reaches `self.connected = False`.  `transportOk` is the transport oracle
for the single unregister exchange. -/
def Session.disconnect (s : Session) (transportOk : Bool) :
    Session × Option PyErr :=
  if s.connected then
    let s1 := s.newQuery
    let s2 := { s1 with last_error := 0 }
    if transportOk then ({ s2 with connected := false }, none)
    else (s2, some PyErr.transportError)
  else (s, none)

/-- `Connection.push_database` (`irbis/connection.py`): asserts a non-empty
name, pushes the current database onto the stack, installs the new one and
returns the previous. -/
def Session.pushDatabase (s : Session) (database : PStr) :
    Except PyErr (Session × PStr) :=
  if database = [] then .error PyErr.assertionError
  else .ok ({ s with
      stack := s.stack ++ [s.database]
      database := database }, s.database)

/-- `Connection.pop_database` (`irbis/connection.py`): reads the current
database, pops the stack top into `database` and returns the previous
current; `list.pop()` on an empty stack raises `IndexError` before the
assignment, leaving the session untouched. -/
def Session.popDatabase (s : Session) : Session × Except PyErr PStr :=
  match s.stack.getLast? with
  | none => (s, .error PyErr.indexError)
  | some top =>
    ({ s with
        stack := s.stack.dropLast
        database := top }, .ok s.database)

/-- Modelled from the spec: `MAX_POSTINGS` from the missing
`irbis/_common.py` — the fixed maximum-postings bound of spec sections 4.5
and 8; the spec does not state the number, so the constant is given a
concrete value to keep the definition executable. -/
def MAX_POSTINGS : Nat := 32758

/-- A response to a multi-record format command: return code and the
remaining UTF lines. -/
structure FormatResponse where
  code : Int
  lines : List PStr
deriving DecidableEq, Repr

/-- The result-line postprocessing of `format_records`: Python
`line.split('#', 1)[1]` per line — `IndexError` when a line has no `#`. -/
def afterHash : List PStr → Except PyErr (List PStr)
  | [] => .ok []
  | line :: rest =>
    match (splitFirst '#' line).2 with
    | none => .error PyErr.indexError
    | some t => (afterHash rest).map (t :: ·)

/-- `Connection.format_records` (`irbis/connection.py`): an empty MFN list
returns `[]`; an empty script raises `ValueError` (`throw_value_error`); a
batch over `MAX_POSTINGS` raises `IrbisError` — all three before the query
is built or any transport call happens.  Otherwise the query is built
(incrementing the query id), executed once (clearing `last_error`), the
return code checked against the default accepted set (non-negative, spec
section 6), and the result lines are cut after their `#`.  The final `Nat`
counts transport calls. -/
def Session.formatRecords (s : Session) (script : PStr) (records : List Int)
    (resp : FormatResponse) : Session × Except PyErr (List PStr) × Nat :=
  if records = [] then (s, .ok [], 0)
  else if script = [] then (s, .error PyErr.valueError, 0)
  else if records.length > MAX_POSTINGS then
    (s, .error (PyErr.irbisError none), 0)
  else
    let s1 := s.newQuery
    let s2 := { s1 with last_error := 0 }
    if resp.code < 0 then (s2, .error (PyErr.irbisError (some resp.code)), 1)
    else (s2, afterHash resp.lines, 1)

/-- Modelled from the spec: the one-character short line delimiter `\x1E`
and `short_irbis_to_lines` from the missing `irbis/_common.py`. -/
def shortIrbisToLines (text : PStr) : List PStr := splitOnChar '\x1e' text

/-- A response to an update-record command: the return code (the new
maximum MFN) and the two UTF lines `write_record` reads back. -/
structure WriteResponse where
  code : Int
  line1 : PStr
  line2 : PStr
deriving DecidableEq, Repr

/-- `Connection.write_record` (`irbis/connection.py`): resolve the database
(the record's own when truthy, else the session's, else `ValueError`),
reject an empty record, execute the update query and check the return code;
then — unless `dont_parse` — read the echoed record (the first UTF line,
then the second split on the short delimiter), set the record's database
and re-`parse` the caller's record in place; the return code is returned as
the new maximum MFN.  Query-id/last-error threading is elided: the claim
concerns the record and the returned value. -/
def writeRecord (sdb : PStr) (record : Record) (dont_parse : Bool)
    (resp : WriteResponse) : Except PyErr (Record × Int) :=
  let rdb := record.database.getD []
  if rdb = [] ∧ sdb = [] then .error PyErr.valueError
  else
    let database := if rdb = [] then sdb else rdb
    if record.fields = [] then .error PyErr.valueError
    else if resp.code < 0 then .error (PyErr.irbisError (some resp.code))
    else if dont_parse then .ok (record, resp.code)
    else
      let text := resp.line1 :: shortIrbisToLines resp.line2
      match Record.parseMut { record with database := some database } text with
      | (r2, none) => .ok (r2, resp.code)
      | (_, some e) => .error e

theorem connectLoop_cons (s : Session) (cid : Int) (resp : RegResponse)
    (rest : List (Int × RegResponse)) :
    connectLoop s ((cid, resp) :: rest) =
      if resp.code = -3337 then
        match connectLoop
            { s with client_id := cid, query_id := 1, last_error := 0 } rest with
        | .ok s' ini n => .ok s' ini (n + 1)
        | other => other
      else
        .ok (Session.connectFinish
              { s with client_id := cid, query_id := 1, last_error := 0 } resp).1
          (Session.connectFinish
            { s with client_id := cid, query_id := 1, last_error := 0 } resp).2
          1 := rfl

theorem connectLoop_append {pre : List (Int × RegResponse)}
    (hpre : ∀ p ∈ pre, p.2.code = -3337) (s : Session) (cid : Int)
    {resp : RegResponse} (hlast : resp.code ≠ -3337) :
    connectLoop s (pre ++ [(cid, resp)]) =
      ConnectResult.ok
        (Session.connectFinish
          { s with client_id := cid, query_id := 1, last_error := 0 } resp).1
        (Session.connectFinish
          { s with client_id := cid, query_id := 1, last_error := 0 } resp).2
        (pre.length + 1) := by
  induction pre generalizing s with
  | nil =>
    rw [List.nil_append, connectLoop_cons, if_neg hlast]
    rfl
  | cons p ps ih =>
    obtain ⟨pcid, presp⟩ := p
    have hp : presp.code = -3337 := hpre (pcid, presp) (List.mem_cons_self _ _)
    rw [List.cons_append, connectLoop_cons, if_pos hp,
      ih (fun q hq => hpre q (List.mem_cons_of_mem _ hq))]
    rfl

theorem connectLoop_ok {l : List (Int × RegResponse)} :
    ∀ {s s' : Session} {ini : IniFile} {n : Nat},
      connectLoop s l = .ok s' ini n → s'.connected = true ∧ s'.ini_file = ini := by
  induction l with
  | nil =>
    intro s s' ini n h
    exact absurd h (by rw [connectLoop]; simp)
  | cons p ps ih =>
    intro s s' ini n h
    obtain ⟨cid, resp⟩ := p
    rw [connectLoop_cons] at h
    by_cases hc : resp.code = -3337
    · rw [if_pos hc] at h
      cases hrec : connectLoop
          { s with client_id := cid, query_id := 1, last_error := 0 } ps with
      | ok sx inix nx =>
        rw [hrec] at h
        cases h
        exact ih hrec
      | err e =>
        rw [hrec] at h
        exact absurd h (by simp)
      | starved =>
        rw [hrec] at h
        exact absurd h (by simp)
    · rw [if_neg hc] at h
      cases h
      exact ⟨rfl, rfl⟩

/-- C2: on a disconnected session with complete credentials, every
registration response with return code `-3337` causes exactly one further
loop iteration — a fresh random six-digit client id, a query-id reset to
`0` (the registration query build then increments it to `1`) and exactly
one retried request — while the first non-`-3337` response ends the loop:
the request count equals the collision count plus one, the final client id
is the last drawn one, the trailing INI preamble of that response is
parsed, `connected` is set and the INI file is cached and returned. -/
theorem connect_collision_retry {s : Session}
    {pre : List (Int × RegResponse)} {cid : Int} {resp : RegResponse}
    (hconn : s.connected = false)
    (hhost : s.host ≠ []) (hport : s.port ≠ 0) (huser : s.username ≠ [])
    (hpass : s.password ≠ []) (hdb : s.database ≠ [])
    (hpre : ∀ p ∈ pre, p.2.code = -3337)
    (hlast : resp.code ≠ -3337)
    (hcid : 100000 ≤ cid ∧ cid ≤ 999999) :
    Session.connect s (pre ++ [(cid, resp)])
      = ConnectResult.ok
          (Session.connectFinish
            { s with client_id := cid, query_id := 1, last_error := 0 } resp).1
          (Session.connectFinish
            { s with client_id := cid, query_id := 1, last_error := 0 } resp).2
          (pre.length + 1)
    ∧ (Session.connectFinish
        { s with client_id := cid, query_id := 1, last_error := 0 } resp).1.client_id
        = cid
    ∧ 100000 ≤ (Session.connectFinish
        { s with client_id := cid, query_id := 1, last_error := 0 } resp).1.client_id
    ∧ (Session.connectFinish
        { s with client_id := cid, query_id := 1, last_error := 0 } resp).1.client_id
        ≤ 999999
    ∧ (Session.connectFinish
        { s with client_id := cid, query_id := 1, last_error := 0 } resp).1.query_id = 1
    ∧ (Session.connectFinish
        { s with client_id := cid, query_id := 1, last_error := 0 } resp).1.connected
        = true
    ∧ (Session.connectFinish
        { s with client_id := cid, query_id := 1, last_error := 0 } resp).1.ini_file
      = IniFile.parse
          ((pySplitlines ((irbisToLines resp.remaining).headD [])).drop 1) := by
  refine ⟨?_, rfl, hcid.1, hcid.2, rfl, rfl, rfl⟩
  rw [Session.connect, if_neg (by rw [hconn]; exact Bool.false_ne_true),
    if_neg (by simp [hhost, hport, huser, hpass, hdb]),
    connectLoop_append hpre s cid hlast]

/-- A disconnected session with complete credentials. -/
def sess0 : Session :=
  ⟨['h'], 1, ['u'], ['p'], ['D', 'B'], ['C'], 0, 0, false, [], none, ⟨[]⟩, 0⟩

/-- A registration response with the collision return code. -/
def respColl : RegResponse := ⟨-3337, [], []⟩

/-- A successful registration response whose remaining text is a version
line followed by one INI line. -/
def respOkay : RegResponse := ⟨0, ['v'], ['A', '\n', 'B']⟩

theorem connect_collision_retry_witness :
    Session.connect sess0 ([(111111, respColl)] ++ [(123456, respOkay)])
      = ConnectResult.ok
          (Session.connectFinish
            { sess0 with client_id := 123456, query_id := 1, last_error := 0 }
            respOkay).1
          (Session.connectFinish
            { sess0 with client_id := 123456, query_id := 1, last_error := 0 }
            respOkay).2
          ([(111111, respColl)].length + 1) :=
  (connect_collision_retry rfl (by decide) (by decide) (by decide) (by decide)
    (by decide)
    (by
      intro p hp
      rw [List.mem_singleton] at hp
      subst hp
      decide)
    (by decide) (by decide)).1

/-- C4: once a `connect` has succeeded, the session is connected with the
returned INI cached, and any further `connect` (without an intervening
`disconnect`) performs no I/O and no state change: it sends zero
registration requests, leaves every session field as it is and returns the
very INI file the first call produced. -/
theorem connect_noop_when_connected {s : Session}
    {l1 l2 : List (Int × RegResponse)} {s' : Session} {ini : IniFile} {n : Nat}
    (h : Session.connect s l1 = ConnectResult.ok s' ini n) :
    s'.connected = true
    ∧ s'.ini_file = ini
    ∧ Session.connect s' l2 = ConnectResult.ok s' ini 0 := by
  have hmain : s'.connected = true ∧ s'.ini_file = ini := by
    rw [Session.connect] at h
    by_cases hc : s.connected = true
    · rw [if_pos hc] at h
      cases h
      exact ⟨hc, rfl⟩
    · rw [if_neg hc] at h
      by_cases hcred : s.host = [] ∨ s.port = 0 ∨ s.username = []
          ∨ s.password = [] ∨ s.database = []
      · rw [if_pos hcred] at h
        exact absurd h (by simp)
      · rw [if_neg hcred] at h
        exact connectLoop_ok h
  refine ⟨hmain.1, hmain.2, ?_⟩
  rw [Session.connect, if_pos hmain.1, hmain.2]

/-- A connected session with a cached INI file. -/
def sessConn : Session :=
  ⟨['h'], 1, ['u'], ['p'], ['D', 'B'], ['C'], 123456, 1, true, [], some ['v'],
    ⟨[['B']]⟩, 0⟩

theorem connect_noop_when_connected_witness :
    Session.connect sessConn [] = ConnectResult.ok sessConn sessConn.ini_file 0 :=
  (connect_noop_when_connected (show Session.connect sessConn []
      = ConnectResult.ok sessConn sessConn.ini_file 0 from rfl)).2.2

/-- C5 (amended): `disconnect` on a session that is not connected performs
no I/O and changes nothing; on a connected session it sends the unregister
command, and sets `connected` to false when the exchange completes — but a
transport failure during the unregister exchange propagates as an exception
before `connected` is cleared, leaving the session connected (only the
query id, incremented by building the query, and `last_error` have been
touched). -/
theorem disconnect_behavior (s : Session) :
    (s.connected = false → ∀ tok : Bool, s.disconnect tok = (s, none))
    ∧ (s.connected = true →
        s.disconnect true
          = ({ s with
                query_id := s.query_id + 1
                last_error := 0
                connected := false }, none))
    ∧ (s.connected = true →
        s.disconnect false
          = ({ s with
                query_id := s.query_id + 1
                last_error := 0 },
              some PyErr.transportError)) := by
  refine ⟨fun h tok => ?_, fun h => ?_, fun h => ?_⟩
  · rw [Session.disconnect, if_neg (by rw [h]; exact Bool.false_ne_true)]
  · rw [Session.disconnect, if_pos h]
    rfl
  · rw [Session.disconnect, if_pos h]
    rfl

/-- C5 (counterexample): on a connected session whose unregister exchange
fails in transport, `disconnect` propagates the error and the session stays
connected — so "sets connected to false unconditionally, even when the
transport fails" is false on the code. -/
theorem disconnect_failure_counterexample :
    (sessConn.disconnect false).1.connected = true
    ∧ (sessConn.disconnect false).2 = some PyErr.transportError := by
  decide

theorem disconnect_behavior_witness :
    sessConn.disconnect true
      = ({ sessConn with
            query_id := sessConn.query_id + 1
            last_error := 0
            connected := false }, none) :=
  (disconnect_behavior sessConn).2.1 rfl

/-- C7 (amended): `push_database(name)` stores the current database on the
stack and `pop_database()` afterwards restores the exact prior session state
(database and stack included); `pop_database()` with an empty stack raises
`IndexError` — the error of `list.pop()` on an empty list, not a
`ValidationError` — and leaves the session, in particular its current
database, unchanged. -/
theorem push_pop_database (s : Session) {db : PStr} (hdb : db ≠ []) :
    s.pushDatabase db
      = .ok ({ s with stack := s.stack ++ [s.database], database := db },
          s.database)
    ∧ ({ s with stack := s.stack ++ [s.database], database := db }
        : Session).popDatabase = (s, .ok db)
    ∧ (s.stack = [] → s.popDatabase = (s, Except.error PyErr.indexError)) := by
  refine ⟨?_, ?_, fun hst => ?_⟩
  · rw [Session.pushDatabase, if_neg hdb]
  · rw [Session.popDatabase]
    dsimp only []
    rw [List.getLast?_concat, List.dropLast_concat]
  · rw [Session.popDatabase, hst]
    rfl

/-- A session with an empty database stack. -/
def sessEmpty : Session :=
  ⟨['h'], 1, ['u'], ['p'], ['D'], ['C'], 0, 0, true, [], none, ⟨[]⟩, 0⟩

/-- C7 (counterexample): popping with an empty database stack raises
`IndexError`, not the `ValidationError` the claim names, and leaves the
session — its current database included — unchanged. -/
theorem pop_empty_stack_counterexample :
    (sessEmpty.popDatabase).2 = Except.error PyErr.indexError
    ∧ (sessEmpty.popDatabase).2 ≠ Except.error PyErr.validationError
    ∧ (sessEmpty.popDatabase).1 = sessEmpty := by
  decide

theorem push_pop_database_witness :
    sessEmpty.pushDatabase ['X']
      = .ok ({ sessEmpty with
          stack := sessEmpty.stack ++ [sessEmpty.database]
          database := ['X'] }, sessEmpty.database)
    ∧ ({ sessEmpty with
          stack := sessEmpty.stack ++ [sessEmpty.database]
          database := ['X'] } : Session).popDatabase = (sessEmpty, .ok ['X']) :=
  ⟨(push_pop_database sessEmpty (by decide)).1,
   (push_pop_database sessEmpty (by decide)).2.1⟩

/-- C8: with a non-empty script and an MFN list longer than `MAX_POSTINGS`,
`format_records` raises `IrbisError` before the query is built: no transport
call is made and the session state is unchanged. -/
theorem format_records_over_bound {s : Session} {script : PStr}
    {records : List Int} {resp : FormatResponse}
    (hs : script ≠ []) (hlen : records.length > MAX_POSTINGS) :
    s.formatRecords script records resp
      = (s, .error (PyErr.irbisError none), 0) := by
  have hne : records ≠ [] := by
    intro h0
    rw [h0] at hlen
    exact absurd hlen (by decide)
  rw [Session.formatRecords, if_neg hne, if_neg hs, if_pos hlen]

theorem format_records_over_bound_witness :
    sessConn.formatRecords ['f'] (List.replicate 32759 1) ⟨0, []⟩
      = (sessConn, .error (PyErr.irbisError none), 0) :=
  format_records_over_bound (by decide)
    (by rw [List.length_replicate]; decide)

/-- C3: on a connected session, for a non-empty record with a resolvable
database and a non-negative return code, `write_record` with the default
`dont_parse=False` re-parses the server's echoed record into the caller's
record object — its database set to the resolved one, its mfn, status,
version and fields replaced by the echo — and returns the response's return
code as the new maximum MFN; with `dont_parse=True` the record is left
untouched and the same return code is returned. -/
theorem write_record_refresh {sdb : PStr} {record : Record}
    {resp : WriteResponse} {r2 : Record}
    (hne : record.fields ≠ [])
    (hdb : ¬(record.database.getD [] = [] ∧ sdb = []))
    (hcode : 0 ≤ resp.code)
    (hparse : Record.parseMut
        { record with database :=
            (some (if record.database.getD [] = [] then sdb
              else record.database.getD [])) }
        (resp.line1 :: shortIrbisToLines resp.line2) = (r2, none)) :
    writeRecord sdb record false resp = .ok (r2, resp.code)
    ∧ writeRecord sdb record true resp = .ok (record, resp.code) := by
  constructor
  · rw [writeRecord]
    dsimp only []
    rw [if_neg hdb, if_neg hne, if_neg (by omega), if_neg Bool.false_ne_true,
      hparse]
  · rw [writeRecord]
    dsimp only []
    rw [if_neg hdb, if_neg hne, if_neg (by omega)]
    rfl

/-- A record carrying its own database name, for the write-record witness. -/
def rWrite : Record := ⟨some ['D', 'B'], 0, 0, 0, [⟨100, some ['x'], []⟩]⟩

/-- The echoed server response of the write-record witness: new max MFN `5`,
record `3#0`, `0#1`, field `100#y`. -/
def respWrite : WriteResponse :=
  ⟨5, ['3', '#', '0'], ['0', '#', '1', '\x1e', '1', '0', '0', '#', 'y']⟩

theorem write_record_refresh_witness :
    writeRecord [] rWrite false respWrite
      = .ok (⟨some ['D', 'B'], 3, 1, 0, [⟨100, some ['y'], []⟩]⟩, 5)
    ∧ writeRecord [] rWrite true respWrite = .ok (rWrite, 5) :=
  write_record_refresh (by decide) (by decide) (by decide) (by decide)

end Irbis
